import Mathlib

/-!
Verification of the build-decision and build-lifecycle engine of
`idf_build_apps` (file `idf_build_apps/app.py`) against its natural-language
specification.

The Python source is shallowly embedded: pure fragments become Lean
functions, the mutable decision state of an `App` becomes explicit state
passing, filesystem contents become association lists from paths to file
contents, and external collaborators (the manifest queries, the
`files_matches_patterns` / `to_absolute_path` utilities, the OS environment)
become explicit function parameters.
-/

set_option autoImplicit false

/-- `BuildOrNot` from `app.py`: the tri-state build decision. -/
inductive BuildOrNot where
  | yes
  | no
  | unknown
deriving DecidableEq, Repr

/-- The fields of the Python `App` entity that the verified routines read or
write.  `name` is `os.path.basename(os.path.realpath(app_dir))` in the
source — a filesystem-derived value — and is therefore carried as a field.
`depends_components` / `depends_filepatterns` are the manifest collaborator's
answers for this app (empty lists when no manifest is configured). -/
structure App where
  app_dir : String
  target : String
  config_name : Option String
  name : String
  index : Option Int
  parallel_index : Int
  depends_components : List String
  depends_filepatterns : List String
  should_build : BuildOrNot
  checked_should_build : Bool
deriving DecidableEq, Repr

/-- Python's `s.endswith(suffix)`, computed on the character lists (the
built-in `String.endsWith` is not used because its byte-position arithmetic
does not reduce inside the kernel). -/
def pyEndsWith (s suffix : String) : Bool :=
  suffix.data.isSuffixOf s.data

/-- `App.is_modified` from `app.py` (lines 604–615).

`to_absolute_path` lives in the external `utils` module, so it is passed in
as the parameter `toAbs`, returning the `parts` of the resolved absolute
path (the Python code uses `Path.parts` and `Path.parents`).  A modified
file counts iff its last part does not end in `.md` and the app directory is
a strict ancestor of it (`_app_dir_fullpath in _f_fullpath.parents`). -/
def is_modified (toAbs : String → List String) (app_dir : String)
    (modified_files : Option (List String)) : Bool :=
  match modified_files with
  | none => false
  | some fs =>
    fs.any fun f =>
      let fp := toAbs f
      let ap := toAbs app_dir
      !pyEndsWith (fp.getLastD "") ".md" && (ap.isPrefixOf fp && ap.length < fp.length)

/-- `App.check_should_build` from `app.py` (lines 617–679), as a state
transformer on the `App`.

External pieces are parameters: `toAbs` (see `is_modified`) and `fmp`,
the `utils.files_matches_patterns(modified_files, patterns, rootpath)`
collaborator.  The Python `to_list` normalisation is reflected in the
`Option (List String)` argument types. -/
def check_should_build (toAbs : String → List String)
    (fmp : List String → List String → String → Bool)
    (app : App) (manifest_rootpath : String) (check_app_dependencies : Bool)
    (modified_components : Option (List String))
    (modified_files : Option (List String)) : App :=
  if app.should_build ≠ BuildOrNot.unknown then app
  else if !check_app_dependencies then
    { app with should_build := BuildOrNot.yes, checked_should_build := true }
  else if is_modified toAbs app.app_dir modified_files then
    { app with should_build := BuildOrNot.yes, checked_should_build := true }
  else
    let mc : BuildOrNot :=
      match modified_components with
      | some comps =>
        if check_app_dependencies then
          if app.depends_components.any comps.contains then BuildOrNot.yes
          else if app.depends_components ≠ [] then BuildOrNot.no
          else BuildOrNot.unknown
        else BuildOrNot.unknown
      | none => BuildOrNot.unknown
    let mf : BuildOrNot :=
      match modified_files with
      | some files =>
        if check_app_dependencies then
          if fmp files app.depends_filepatterns manifest_rootpath then BuildOrNot.yes
          else if app.depends_filepatterns ≠ [] then BuildOrNot.no
          else BuildOrNot.unknown
        else BuildOrNot.unknown
      | none => BuildOrNot.unknown
    let sb :=
      if mc = BuildOrNot.yes ∨ mf = BuildOrNot.yes then BuildOrNot.yes
      else if mc = BuildOrNot.no then BuildOrNot.no
      else app.should_build
    { app with should_build := sb, checked_should_build := true }

/-- Does the character `x` occur in the list?  (Models Python's `in` test on
strings for a single character.) -/
def containsChar (x : Char) : List Char → Bool
  | [] => false
  | c :: cs => c = x || containsChar x cs

/-- Index of the first occurrence of the pattern `p :: ps` in a character
list, if any.  Models Python's `str.find`. -/
def findSubAux (p : Char) (ps : List Char) : List Char → Option Nat
  | [] => none
  | c :: cs =>
    if (p :: ps).isPrefixOf (c :: cs) then some 0
    else (findSubAux p ps cs).map (· + 1)

/-- `s.find(pat)` from Python, as an `Option Nat` (Python returns `-1` for
no occurrence).  The empty pattern is found at index 0, as in Python. -/
def findSubStr (pat s : String) : Option Nat :=
  match pat.data with
  | [] => some 0
  | p :: ps => findSubAux p ps s.data

/-- `pat in s` from Python (substring containment). -/
def occursStr (pat s : String) : Bool :=
  (findSubStr pat s).isSome

/-- One fuel-indexed pass of Python's `str.replace`: replaces leftmost
non-overlapping occurrences of `p :: ps` by `rep`.  A fuel of `l.length`
always suffices since every step consumes at least one character. -/
def replaceFuel (p : Char) (ps rep : List Char) : Nat → List Char → List Char
  | _, [] => []
  | 0, l => l
  | fuel + 1, c :: cs =>
    if (p :: ps).isPrefixOf (c :: cs) then
      rep ++ replaceFuel p ps rep fuel (cs.drop ps.length)
    else
      c :: replaceFuel p ps rep fuel cs

/-- Python's `s.replace(pat, rep)` for a non-empty `pat` (the `_expand`
placeholders are all two characters long, so the empty-pattern behaviour of
Python is irrelevant and the input is returned unchanged in that case). -/
def pyReplace (s pat rep : String) : String :=
  match pat.data with
  | [] => s
  | p :: ps => ⟨replaceFuel p ps rep.data s.data.length s.data⟩

/-- ASCII word characters, as in the `re.ASCII` regex `\w` used by
`posixpath.expandvars`. -/
def isVarChar (c : Char) : Bool :=
  c.isAlphanum || c = '_'

/-- Fuel-indexed core of `os.path.expandvars` (POSIX variant): expands
`$name` and `\x7bbraced\x7d` forms `$` + `{name}`; unknown variables are left
verbatim; substituted values are not rescanned.  A fuel of `l.length`
suffices since every step consumes at least one character. -/
def expandvarsFuel (env : String → Option String) : Nat → List Char → List Char
  | 0, l => l
  | _ + 1, [] => []
  | fuel + 1, c :: cs =>
    if c = '$' then
      match cs with
      | '{' :: cs2 =>
        let nm := cs2.takeWhile (fun x => x ≠ '}')
        match cs2.dropWhile (fun x => x ≠ '}') with
        | _ :: rest2 =>
          (match env ⟨nm⟩ with
           | some v => v.data ++ expandvarsFuel env fuel rest2
           | none => '$' :: '{' :: (nm ++ '}' :: expandvarsFuel env fuel rest2))
        | [] => c :: expandvarsFuel env fuel cs
      | _ =>
        match cs.takeWhile isVarChar with
        | [] => c :: expandvarsFuel env fuel cs
        | nm =>
          (match env ⟨nm⟩ with
           | some v => v.data ++ expandvarsFuel env fuel (cs.dropWhile isVarChar)
           | none => '$' :: (nm ++ expandvarsFuel env fuel (cs.dropWhile isVarChar)))
    else c :: expandvarsFuel env fuel cs

/-- `os.path.expandvars` with the process environment made an explicit
parameter `env`.  Mirrors the Python fast path: a string without `$` is
returned untouched. -/
def expandvarsStr (env : String → Option String) (s : String) : String :=
  if containsChar '$' s.data then ⟨expandvarsFuel env s.data.length s.data⟩ else s

/-- The components of the active toolchain version (`IDF_VERSION_MAJOR`,
`IDF_VERSION_MINOR`, `IDF_VERSION_PATCH` constants, imported by `app.py`
from the external `constants` module). -/
structure IdfVersion where
  major : Nat
  minor : Nat
  patch : Nat

/-- Python truthiness of an optional string (`if self.config_name:`):
`None` and the empty string are falsy. -/
def strTruthy : Option String → Bool
  | some s => s ≠ ""
  | none => false

/-- `App._expand` from `app.py` (lines 204–233): placeholder-driven path
expansion.  The placeholder passes run in source order: `@i` (only when an
index is assigned), `@p`, `@v`, `@t`, `@n`, then `@f` (guarded by a
containment test), then the `@w` wildcard (replaced by the config name when
that is truthy, else removed together with the single character to its
left), and finally environment-variable expansion.  `os.path.sep` is `/`. -/
def _expand (env : String → Option String) (v : IdfVersion) (app : App)
    (path : String) : String :=
  if path = "" then path
  else
    let path :=
      match app.index with
      | some i => pyReplace path "@i" (toString i)
      | none => path
    let path := pyReplace path "@p" (toString app.parallel_index)
    let path := pyReplace path "@v"
      (toString v.major ++ "_" ++ toString v.minor ++ "_" ++ toString v.patch)
    let path := pyReplace path "@t" app.target
    let path := pyReplace path "@n" app.name
    let path :=
      if occursStr "@f" path then pyReplace path "@f" (pyReplace app.app_dir "/" "_")
      else path
    let path :=
      match findSubStr "@w" path with
      | some pos =>
        if strTruthy app.config_name then
          pyReplace path "@w" (app.config_name.getD "")
        else
          ⟨path.data.take (pos - 1) ++ path.data.drop (pos + 2)⟩
      | none => path
    expandvarsStr env path

/-- Modelled from the spec: the spec's §4.1 claims the full-escaped-name
token `@f` is "substituted *before* any dependency on app-name".  This
variant of `_expand` performs the `@f` substitution before the `@n`
substitution, exactly as those words describe; everything else is identical
to `_expand`. -/
def _expand_fullname_first (env : String → Option String) (v : IdfVersion)
    (app : App) (path : String) : String :=
  if path = "" then path
  else
    let path :=
      match app.index with
      | some i => pyReplace path "@i" (toString i)
      | none => path
    let path := pyReplace path "@p" (toString app.parallel_index)
    let path := pyReplace path "@v"
      (toString v.major ++ "_" ++ toString v.minor ++ "_" ++ toString v.patch)
    let path := pyReplace path "@t" app.target
    let path :=
      if occursStr "@f" path then pyReplace path "@f" (pyReplace app.app_dir "/" "_")
      else path
    let path := pyReplace path "@n" app.name
    let path :=
      match findSubStr "@w" path with
      | some pos =>
        if strTruthy app.config_name then
          pyReplace path "@w" (app.config_name.getD "")
        else
          ⟨path.data.take (pos - 1) ++ path.data.drop (pos + 2)⟩
      | none => path
    expandvarsStr env path

/-- `os.path.isabs` (POSIX): the path starts with `/`. -/
def isabs (p : String) : Bool :=
  match p.data with
  | [] => false
  | c :: _ => c = '/'

/-- `os.path.join(a, b)` (POSIX, two arguments): an absolute second argument
replaces the first; otherwise a `/` separator is inserted unless the first
component is empty or already ends in `/`. -/
def joinPath (a b : String) : String :=
  if isabs b then b
  else if a = "" ∨ pyEndsWith a "/" = true then a ++ b
  else a ++ "/" ++ b

/-- Split a character list on a separator; `splitCharsOn '/' p` mirrors
Python's `p.split('/')`. -/
def splitCharsOn (sep : Char) : List Char → List (List Char)
  | [] => [[]]
  | c :: cs =>
    if c = sep then [] :: splitCharsOn sep cs
    else
      match splitCharsOn sep cs with
      | [] => [[c]]
      | g :: gs => (c :: g) :: gs

/-- `posixpath.normpath`: collapse empty and `.` components, resolve `..`
against preceding components (dropping `..` at an absolute root, keeping it
for relative paths with nothing to pop).  The duplicated-leading-slash
corner of POSIX (`//a`) is not modelled. -/
def normpath (p : String) : String :=
  let comps := (splitCharsOn '/' p.data).map (fun l => (⟨l⟩ : String))
  let stack := comps.foldl
    (fun (st : List String) (comp : String) =>
      if comp = "" ∨ comp = "." then st
      else if comp ≠ ".." then st ++ [comp]
      else if (¬isabs p ∧ st = []) ∨ (st ≠ [] ∧ st.getLast? = some "..") then st ++ [comp]
      else if st ≠ [] then st.dropLast
      else st) []
  let out := if isabs p then "/" ++ String.intercalate "/" stack
             else String.intercalate "/" stack
  if out = "" then "." else out

/-- Modelled from the spec: `os.path.realpath` (an OS call, external to the
repository) returns an absolute, normalized path; a relative argument is
resolved against the current working directory `cwd`.  Symbolic-link
resolution is not modelled, so this is the lexical normalization of
`cwd/p`. -/
def realpathFrom (cwd p : String) : String :=
  normpath (joinPath cwd p)

/-- `App.build_path` from `app.py` (lines 256–262): an absolute (expanded)
build directory is returned verbatim; otherwise the build directory is
joined onto the (expanded) work directory and resolved with `realpath`.
`work_dir` and `build_dir` are the already-expanded property values. -/
def build_path (cwd work_dir build_dir : String) : String :=
  if isabs build_dir then build_dir
  else realpathFrom cwd (joinPath work_dir build_dir)

/-- `os.path.basename` (POSIX): the part after the last `/`. -/
def basenameStr (p : String) : String :=
  ⟨(p.data.reverse.takeWhile (fun c => c ≠ '/')).reverse⟩

/-- `os.path.dirname` (POSIX): the part up to the last `/`, with trailing
slashes stripped unless the result consists only of slashes. -/
def dirnameStr (p : String) : String :=
  let head := (p.data.reverse.dropWhile (fun c => c ≠ '/')).reverse
  if head.all (fun c => c = '/') then ⟨head⟩
  else ⟨(head.reverse.dropWhile (fun c => c = '/')).reverse⟩

/-- `CMakeApp.SDKCONFIG_TEST_OPTS` from `app.py` (lines 751–755): keys
extracted from sdkconfig files and passed to CMake. -/
def SDKCONFIG_TEST_OPTS : List String :=
  ["EXCLUDE_COMPONENTS", "TEST_EXCLUDE_COMPONENTS", "TEST_COMPONENTS"]

/-- `CMakeApp.SDKCONFIG_IGNORE_OPTS` from `app.py` (line 758): keys dropped
from sdkconfig files without further effect. -/
def SDKCONFIG_IGNORE_OPTS : List String :=
  ["TEST_GROUPS"]

/-- `App.SDKCONFIG_LINE_REGEX` from `app.py` (line 75):
the regex `^([^=]+)="?([^"\n]*)"?\n*$` as a deterministic matcher.  A line
matches iff it has a non-empty run of non-`=` characters, an `=`, and a
value in which a quote may appear only as a leading and/or trailing
character, followed only by trailing newlines.  Returns the key
(group 1) and the unquoted value (group 2). -/
def matchSdkconfigLine (line : String) : Option (String × String) :=
  let key := line.data.takeWhile (fun c => c ≠ '=')
  match line.data.dropWhile (fun c => c ≠ '=') with
  | [] => none
  | _ :: rest =>
    if key = [] then none
    else
      let r := (rest.reverse.dropWhile (fun c => c = '\n')).reverse
      if containsChar '\n' r then none
      else
        let r1 := match r with
          | '"' :: t => t
          | _ => r
        let r2 := if r1.getLast? = some '"' then r1.dropLast else r1
        if containsChar '"' r2 then none else some (⟨key⟩, ⟨r2⟩)

/-- The mutable per-`App` state accumulated while processing sdkconfig
files: `cmake_vars` (dict of variables to inject at build time) and
`_sdkconfig_files_defined_target`. -/
structure SdkState where
  cmake_vars : List (String × String)
  sdkconfig_files_defined_target : Option String
deriving DecidableEq, Repr

/-- Lookup in an association list keyed by strings (Python `dict` access /
file lookup in a directory listing). -/
def dictFind {α : Type} : List (String × α) → String → Option α
  | [], _ => none
  | (k1, v) :: rest, k => if k1 = k then some v else dictFind rest k

/-- Remove a key from an association list (`os.unlink` on a directory
listing / overwritten dict entry). -/
def dictErase {α : Type} : List (String × α) → String → List (String × α)
  | [], _ => []
  | (k1, v) :: rest, k =>
    if k1 = k then dictErase rest k else (k1, v) :: dictErase rest k

/-- Insert or overwrite a key in an association list (Python
`d[k] = v` / writing a file into a directory). -/
def dictInsert {α : Type} (d : List (String × α)) (k : String) (v : α) :
    List (String × α) :=
  dictErase d k ++ [(k, v)]

/-- One line of the sdkconfig loop in `App._process_sdkconfig_files`
(`app.py` lines 318–334): expand environment variables, parse the line,
record a `CONFIG_IDF_TARGET` value, and — only for the CMake variant —
divert test-option keys into `cmake_vars` and drop ignored keys; every
other line is written out (environment-expanded). -/
def processLine (isCMake : Bool) (env : String → Option String) (st : SdkState)
    (line : String) : SdkState × Option String :=
  let l := expandvarsStr env line
  match matchSdkconfigLine l with
  | some (k, v) =>
    let st1 := if k = "CONFIG_IDF_TARGET"
               then { st with sdkconfig_files_defined_target := some v } else st
    if isCMake && SDKCONFIG_TEST_OPTS.contains k then
      ({ st1 with cmake_vars := dictInsert st1.cmake_vars k v }, none)
    else if isCMake && SDKCONFIG_IGNORE_OPTS.contains k then (st1, none)
    else (st1, some l)
  | none => (st, some l)

/-- The output component of `processLine`, which does not depend on the
running state (proved in `processLine_snd`). -/
def lineOut (isCMake : Bool) (env : String → Option String)
    (line : String) : Option String :=
  let l := expandvarsStr env line
  match matchSdkconfigLine l with
  | some (k, _) =>
    if isCMake && SDKCONFIG_TEST_OPTS.contains k then none
    else if isCMake && SDKCONFIG_IGNORE_OPTS.contains k then none
    else some l
  | none => some l

/-- Process all lines of one sdkconfig file, threading the state and
collecting the surviving (normalized) output lines in order. -/
def processFileLines (isCMake : Bool) (env : String → Option String) :
    SdkState → List String → SdkState × List String
  | st, [] => (st, [])
  | st, line :: rest =>
    ((processFileLines isCMake env (processLine isCMake env st line).1 rest).1,
     (processLine isCMake env st line).2.toList ++
       (processFileLines isCMake env (processLine isCMake env st line).1 rest).2)

/-- A candidate sdkconfig file resolved against the work directory when not
already absolute (`app.py` lines 308–309). -/
def resolveCandidate (work_dir c : String) : String :=
  if isabs c then c else joinPath work_dir c

/-- The scratch-file names (basenames) of the candidates that exist on the
filesystem, in processing order. -/
def sdkNames (work_dir : String) (fs : List (String × List String))
    (cands : List String) : List String :=
  cands.filterMap (fun c =>
    (dictFind fs (resolveCandidate work_dir c)).map
      (fun _ => basenameStr (resolveCandidate work_dir c)))

/-- All names the pipeline may create in the scratch directory: the
basenames of the existing candidates and their target-specific siblings. -/
def sdkAllNames (work_dir target : String) (fs : List (String × List String))
    (cands : List String) : List String :=
  sdkNames work_dir fs cands ++
    (sdkNames work_dir fs cands).map (fun n => n ++ "." ++ target)

/-- Accumulator of the sdkconfig pipeline: the result list `res` of file
paths handed to the toolchain, the contents of the scratch directory
(`expanded_sdkconfig_files/<build-dir-basename>`) as an association list
from file name to file content, and the running `SdkState`. -/
structure SdkAcc where
  res : List String
  scratch : List (String × String)
  st : SdkState
deriving DecidableEq, Repr

/-- The candidate-file loop of `App._process_sdkconfig_files` (`app.py`
lines 307–353).  The filesystem is the association list `fs` from path to
file lines (each line carries its trailing newline); a missing candidate is
skipped.  Writing the expanded copy, `os.unlink`, and `shutil.copy` of the
`<basename>.<target>` sibling (the glob has no wildcard characters in
practice, so it is modelled as an exact lookup) act on the scratch
directory listing. -/
def sdkGo (isCMake : Bool) (env : String → Option String)
    (work_dir expanded_dir target : String)
    (fs : List (String × List String)) : List String → SdkAcc → SdkAcc
  | [], acc => acc
  | c :: rest, acc =>
    let f := resolveCandidate work_dir c
    match dictFind fs f with
    | none => sdkGo isCMake env work_dir expanded_dir target fs rest acc
    | some lines =>
      let pr := processFileLines isCMake env acc.st lines
      let newContent := String.join pr.2
      let bn := basenameStr f
      if newContent = String.join lines then
        sdkGo isCMake env work_dir expanded_dir target fs rest
          { res := acc.res ++ [f],
            scratch := dictErase (dictInsert acc.scratch bn newContent) bn,
            st := pr.1 }
      else
        let scratch1 := dictInsert acc.scratch bn newContent
        let sibName := bn ++ "." ++ target
        let scratch2 :=
          match dictFind fs (joinPath (dirnameStr f) sibName) with
          | some sibLines => dictInsert scratch1 sibName (String.join sibLines)
          | none => scratch1
        sdkGo isCMake env work_dir expanded_dir target fs rest
          { res := acc.res ++ [joinPath expanded_dir bn],
            scratch := scratch2,
            st := pr.1 }

/-- The candidate sdkconfig files (`app.py` line 307): the defaults followed
by the overlay `sdkconfig_path` when that is truthy (Python’s `if
self.sdkconfig_path`, so `None` and the empty string are skipped). -/
def sdkCandidates (sdkconfig_defaults : List String)
    (sdkconfig_path : Option String) : List String :=
  sdkconfig_defaults ++
    (match sdkconfig_path with
     | some p => if p ≠ "" then [p] else []
     | none => [])

/-- `App._process_sdkconfig_files` from `app.py` (lines 296–366), over the
explicit filesystem `fs`.  Candidates are the sdkconfig defaults followed by
the overlay `sdkconfig_path` when that is truthy; each is resolved against
the work directory if relative.  The best-effort `os.rmdir` calls at the end
remove only empty directories and do not affect the modelled outputs. -/
def _process_sdkconfig_files (isCMake : Bool) (env : String → Option String)
    (work_dir build_dir target : String)
    (sdkconfig_defaults : List String) (sdkconfig_path : Option String)
    (fs : List (String × List String)) : SdkAcc :=
  let expanded_dir :=
    joinPath (joinPath work_dir "expanded_sdkconfig_files") (basenameStr build_dir)
  sdkGo isCMake env work_dir expanded_dir target fs
    (sdkCandidates sdkconfig_defaults sdkconfig_path)
    { res := [], scratch := [],
      st := { cmake_vars := [], sdkconfig_files_defined_target := none } }

/-- `App.LOG_DEBUG_LINES` from `app.py` (line 82): how many trailing lines
of a failed build log are echoed for diagnosis. -/
def LOG_DEBUG_LINES : Nat := 25

/-- ASCII lowercasing of a string, for the case-insensitive
`LOG_ERROR_WARNING_REGEX` search. -/
def toLowerStr (s : String) : String :=
  ⟨s.data.map Char.toLower⟩

/-- `line.rstrip()` from Python (trailing ASCII whitespace stripped; the
exotic Python whitespace code points are not modelled). -/
def rstrip (s : String) : String :=
  ⟨(s.data.reverse.dropWhile Char.isWhitespace).reverse⟩

/-- `App.is_error_or_warning` from `app.py` (lines 588–598).  The
`LOG_ERROR_WARNING_REGEX` `(?:error|warning):` with `re.IGNORECASE` is a
case-insensitive substring search for `error:` or `warning:`; the
`IGNORE_WARNS_REGEXES` list is the external collaborator `ignores`
(true iff some ignore regex matches the line). -/
def is_error_or_warning (ignores : String → Bool) (line : String) :
    Bool × Bool :=
  if !(occursStr "error:" (toLowerStr line) ||
       occursStr "warning:" (toLowerStr line)) then (false, false)
  else (true, ignores line)

/-- The observable actions `App.build` performs after the toolchain step, in
program order. -/
inductive BuildEvent where
  | warnLine (line : String)
  | ignoredLine (line : String)
  | diagLine (line : String)
  | removeTempLog
  | writeSizeJson
  | cleanBuildDir
  | raised (msg : String)
  | returned (ok : Bool)
deriving DecidableEq, Repr

/-- `App.build` from `app.py` (lines 411–531), from the point where the log
sink is opened, as the ordered list of its observable events.  `dry_run`
short-circuits to success before any log handling.  `buildResult` is the
outcome of the toolchain-specific `_build` call (`Except.error` for a raised
`BuildError`); `rawLines` are the lines of the captured log.  In source
order: classify every non-blank rstripped log line (ignored warnings at
info level, others at warning level), echo the last `LOG_DEBUG_LINES` lines
when the toolchain failed, delete the anonymous temporary log only when no
persistent log path is configured and no build error occurred, generate the
size report only for a successful build with a configured size path, remove
the build directory unless preserving, and finally re-raise the build error,
else raise the strict-warnings policy error, else return. -/
def build_run (ignores : String → Bool)
    (dry_run check_warnings preserve : Bool)
    (build_log_path size_json_path : Option String)
    (buildResult : Except String Bool)
    (rawLines : List String) : List BuildEvent :=
  if dry_run then [BuildEvent.returned true]
  else
    let keep_logfile := build_log_path.isSome
    let build_with_error : Option String :=
      match buildResult with
      | Except.ok _ => none
      | Except.error e => some e
    let is_built : Bool :=
      match buildResult with
      | Except.ok b => b
      | Except.error _ => false
    let lines := rawLines.filterMap
      (fun l => if rstrip l = "" then none else some (rstrip l))
    let classifyEvents := lines.filterMap (fun line =>
      if (is_error_or_warning ignores line).1 then
        (if (is_error_or_warning ignores line).2 then
          some (BuildEvent.ignoredLine line)
        else some (BuildEvent.warnLine line))
      else none)
    let has_unignored_warning := lines.any (fun line =>
      (is_error_or_warning ignores line).1 && !(is_error_or_warning ignores line).2)
    let diagEvents :=
      match build_with_error with
      | some _ => (lines.drop (lines.length - LOG_DEBUG_LINES)).map BuildEvent.diagLine
      | none => []
    let removeEvents :=
      if !keep_logfile && build_with_error.isNone then [BuildEvent.removeTempLog]
      else []
    let sizeEvents :=
      if is_built && size_json_path.isSome then [BuildEvent.writeSizeJson] else []
    let cleanEvents := if !preserve then [BuildEvent.cleanBuildDir] else []
    let finalEvents :=
      match build_with_error with
      | some e => [BuildEvent.raised e]
      | none =>
        if check_warnings && has_unignored_warning then
          [BuildEvent.raised "Build succeeded with warnings"]
        else [BuildEvent.returned is_built]
    classifyEvents ++ diagEvents ++ removeEvents ++ sizeEvents ++ cleanEvents ++
      finalEvents

/-- C1: with the decision still Unknown, `check_should_build` follows the
documented decision matrix: `checkDependencies = false` forces Yes; a
qualifying modified file inside the app tree forces Yes; otherwise the
component and file-pattern signals are evaluated and combined (Yes if either
is Yes, No only when the component signal is No, Unknown otherwise — in
particular empty declared dependency sets leave the decision Unknown). -/
theorem check_should_build_matrix (toAbs : String → List String)
    (fmp : List String → List String → String → Bool)
    (app : App) (mrp : String) (cad : Bool)
    (mc : Option (List String)) (mf : Option (List String))
    (h : app.should_build = BuildOrNot.unknown) :
    (check_should_build toAbs fmp app mrp cad mc mf).should_build =
      (if cad = false then BuildOrNot.yes
       else if is_modified toAbs app.app_dir mf then BuildOrNot.yes
       else
         let sc : BuildOrNot :=
           match mc with
           | some comps =>
             if app.depends_components.any comps.contains then BuildOrNot.yes
             else if app.depends_components ≠ [] then BuildOrNot.no
             else BuildOrNot.unknown
           | none => BuildOrNot.unknown
         let sf : BuildOrNot :=
           match mf with
           | some files =>
             if fmp files app.depends_filepatterns mrp then BuildOrNot.yes
             else if app.depends_filepatterns ≠ [] then BuildOrNot.no
             else BuildOrNot.unknown
           | none => BuildOrNot.unknown
         if sc = BuildOrNot.yes ∨ sf = BuildOrNot.yes then BuildOrNot.yes
         else if sc = BuildOrNot.no then BuildOrNot.no
         else BuildOrNot.unknown) := by
  unfold check_should_build
  rw [h]
  by_cases him : is_modified toAbs app.app_dir mf
  · cases cad <;> cases mc <;> cases mf <;> simp_all
  · cases cad <;> cases mc <;> cases mf <;> simp_all

/-- Closed witness for `check_should_build_matrix`. -/
theorem check_should_build_matrix_witness :
    (check_should_build (fun s => [s]) (fun _ _ _ => false)
        { app_dir := "a", target := "t", config_name := none, name := "a",
          index := none, parallel_index := 1, depends_components := ["c"],
          depends_filepatterns := [], should_build := BuildOrNot.unknown,
          checked_should_build := false }
        "" true (some ["d"]) (some [])).should_build = BuildOrNot.no := by
  rw [check_should_build_matrix (fun s => [s]) (fun _ _ _ => false) _ "" true
    (some ["d"]) (some []) rfl]
  decide

/-- C2: the decision is sticky.  Once `should_build` is Yes or No, any
further call to `check_should_build` (with arbitrary arguments) leaves the
`App` entirely unchanged; consequently the only possible transition of
`should_build` is out of Unknown, and it fires at most once. -/
theorem check_should_build_sticky (toAbs : String → List String)
    (fmp : List String → List String → String → Bool)
    (app : App) (mrp : String) (cad : Bool)
    (mc : Option (List String)) (mf : Option (List String)) :
    (app.should_build ≠ BuildOrNot.unknown →
      check_should_build toAbs fmp app mrp cad mc mf = app) ∧
    ((check_should_build toAbs fmp app mrp cad mc mf).should_build ≠ app.should_build →
      app.should_build = BuildOrNot.unknown) := by
  constructor
  · intro h
    unfold check_should_build
    simp [h]
  · intro h
    by_contra hne
    apply h
    unfold check_should_build
    simp [hne]

/-- Closed witness for `check_should_build_sticky`. -/
theorem check_should_build_sticky_witness :
    check_should_build (fun s => [s]) (fun _ _ _ => true)
        { app_dir := "a", target := "t", config_name := none, name := "a",
          index := none, parallel_index := 1, depends_components := [],
          depends_filepatterns := [], should_build := BuildOrNot.no,
          checked_should_build := true }
        "" false (some ["x"]) (some ["y"]) =
      { app_dir := "a", target := "t", config_name := none, name := "a",
        index := none, parallel_index := 1, depends_components := [],
        depends_filepatterns := [], should_build := BuildOrNot.no,
        checked_should_build := true } :=
  (check_should_build_sticky (fun s => [s]) (fun _ _ _ => true) _ "" false
    (some ["x"]) (some ["y"])).1 (by decide)

theorem replaceFuel_id (p : Char) (ps rep : List Char) :
    ∀ (fuel : Nat) (l : List Char), findSubAux p ps l = none →
      replaceFuel p ps rep fuel l = l := by
  intro fuel
  induction fuel with
  | zero => intro l _; cases l <;> rfl
  | succ n ih =>
    intro l h
    cases l with
    | nil => rfl
    | cons c cs =>
      unfold findSubAux at h
      by_cases hp : (p :: ps).isPrefixOf (c :: cs) = true
      · rw [if_pos hp] at h; cases h
      · rw [if_neg hp] at h
        unfold replaceFuel
        rw [if_neg hp, ih cs (Option.map_eq_none'.mp h)]

theorem pyReplace_not_occurs (s pat rep : String) (h : occursStr pat s = false) :
    pyReplace s pat rep = s := by
  unfold occursStr findSubStr at h
  unfold pyReplace
  cases hp : pat.data with
  | nil => rfl
  | cons p ps =>
    rw [hp] at h
    have h' : (findSubAux p ps s.data).isSome = false := h
    have h2 : findSubAux p ps s.data = none := by
      cases hfd : findSubAux p ps s.data
      · rfl
      · rw [hfd] at h'; simp at h'
    show String.mk (replaceFuel p ps rep.data s.data.length s.data) = s
    rw [replaceFuel_id p ps rep.data s.data.length s.data h2]

theorem findSubStr_eq_none (pat s : String) (h : occursStr pat s = false) :
    findSubStr pat s = none := by
  unfold occursStr at h
  cases hfd : findSubStr pat s
  · rfl
  · rw [hfd] at h; cases h

theorem containsChar_append (x : Char) (a b : List Char) :
    containsChar x (a ++ b) = (containsChar x a || containsChar x b) := by
  induction a with
  | nil => rfl
  | cons c cs ih => simp [containsChar, ih, Bool.or_assoc]

theorem containsChar_drop (x : Char) (l : List Char) (n : Nat)
    (h : containsChar x l = false) : containsChar x (l.drop n) = false := by
  induction l generalizing n with
  | nil => cases n <;> exact h
  | cons c cs ih =>
    cases n with
    | zero => exact h
    | succ m =>
      apply ih
      unfold containsChar at h
      exact (Bool.or_eq_false_iff.mp h).2

theorem containsChar_take (x : Char) (l : List Char) (n : Nat)
    (h : containsChar x l = false) : containsChar x (l.take n) = false := by
  induction l generalizing n with
  | nil => cases n <;> exact h
  | cons c cs ih =>
    unfold containsChar at h
    cases n with
    | zero => rfl
    | succ m =>
      rw [List.take_succ_cons]
      unfold containsChar
      rw [ih m (Bool.or_eq_false_iff.mp h).2, (Bool.or_eq_false_iff.mp h).1]
      rfl

theorem containsChar_replaceFuel (x p : Char) (ps rep : List Char)
    (hrep : containsChar x rep = false) :
    ∀ (fuel : Nat) (l : List Char), containsChar x l = false →
      containsChar x (replaceFuel p ps rep fuel l) = false := by
  intro fuel
  induction fuel with
  | zero =>
    intro l h
    cases l with
    | nil => rfl
    | cons c cs => exact h
  | succ n ih =>
    intro l h
    cases l with
    | nil => rfl
    | cons c cs =>
      unfold containsChar at h
      have hc := (Bool.or_eq_false_iff.mp h).1
      have hcs := (Bool.or_eq_false_iff.mp h).2
      unfold replaceFuel
      by_cases hpf : (p :: ps).isPrefixOf (c :: cs) = true
      · rw [if_pos hpf, containsChar_append, hrep,
          ih (cs.drop ps.length) (containsChar_drop x cs ps.length hcs)]
        rfl
      · rw [if_neg hpf]
        unfold containsChar
        rw [hc, ih cs hcs]
        rfl

theorem containsChar_pyReplace (x : Char) (s pat rep : String)
    (hs : containsChar x s.data = false)
    (hrep : containsChar x rep.data = false) :
    containsChar x (pyReplace s pat rep).data = false := by
  unfold pyReplace
  cases hp : pat.data with
  | nil => exact hs
  | cons p ps =>
    exact containsChar_replaceFuel x p ps rep.data hrep s.data.length s.data hs

theorem expandvarsStr_id (env : String → Option String) (s : String)
    (h : containsChar '$' s.data = false) : expandvarsStr env s = s := by
  unfold expandvarsStr
  rw [h]
  rfl

/-- C4 (amended): `_expand` is a total function of its inputs, and for every
input string containing none of the recognized placeholder tokens and no
environment-variable reference (no `$` character) it returns the input
unchanged. -/
theorem _expand_no_tokens_id (env : String → Option String) (v : IdfVersion)
    (app : App) (path : String)
    (hi : occursStr "@i" path = false) (hp : occursStr "@p" path = false)
    (hv : occursStr "@v" path = false) (ht : occursStr "@t" path = false)
    (hn : occursStr "@n" path = false) (hf : occursStr "@f" path = false)
    (hw : occursStr "@w" path = false)
    (hd : containsChar '$' path.data = false) :
    _expand env v app path = path := by
  by_cases hemp : path = ""
  · rw [hemp]; rfl
  · have hP1 : (match app.index with
        | some i => pyReplace path "@i" (toString i)
        | none => path) = path := by
      cases app.index with
      | none => rfl
      | some i => exact pyReplace_not_occurs path "@i" (toString i) hi
    simp only [_expand]
    rw [if_neg hemp, hP1,
      pyReplace_not_occurs path "@p" _ hp,
      pyReplace_not_occurs path "@v" _ hv,
      pyReplace_not_occurs path "@t" _ ht,
      pyReplace_not_occurs path "@n" _ hn]
    rw [if_neg (show ¬occursStr "@f" path = true from by
      rw [hf]; exact Bool.false_ne_true)]
    rw [findSubStr_eq_none "@w" path hw]
    exact expandvarsStr_id env path hd

/-- Closed witness for `_expand_no_tokens_id`. -/
theorem _expand_no_tokens_id_witness :
    _expand (fun _ => none) ⟨5, 1, 2⟩
      { app_dir := "a", target := "t", config_name := none, name := "a",
        index := none, parallel_index := 1, depends_components := [],
        depends_filepatterns := [], should_build := BuildOrNot.unknown,
        checked_should_build := false }
      "plain" = "plain" :=
  _expand_no_tokens_id (fun _ => none) ⟨5, 1, 2⟩ _ "plain"
    (by decide) (by decide) (by decide) (by decide) (by decide) (by decide)
    (by decide) (by decide)

/-- C4 counterexample: the string `"$X"` contains none of the recognized
placeholder tokens, yet `_expand` does not return it unchanged — the final
`os.path.expandvars` pass rewrites the environment reference, here with an
environment in which `X` is bound to `y`. -/
theorem _expand_untouched_cex :
    (occursStr "@i" "$X" = false ∧ occursStr "@p" "$X" = false ∧
     occursStr "@v" "$X" = false ∧ occursStr "@t" "$X" = false ∧
     occursStr "@n" "$X" = false ∧ occursStr "@f" "$X" = false ∧
     occursStr "@w" "$X" = false) ∧
    _expand (fun s => if s = "X" then some "y" else none) ⟨5, 1, 2⟩
      { app_dir := "a", target := "t", config_name := none, name := "a",
        index := none, parallel_index := 1, depends_components := [],
        depends_filepatterns := [], should_build := BuildOrNot.unknown,
        checked_should_build := false }
      "$X" = "y" ∧ ("y" : String) ≠ "$X" := by
  decide

/-- C3: for an input containing the wildcard token `@w` (and none of the
other placeholder tokens, and no environment reference), `_expand` replaces
every occurrence of `@w` by the config name when one is set (truthy), and
otherwise removes the first occurrence of the token together with the single
character immediately to its left. -/
theorem _expand_wildcard (env : String → Option String) (v : IdfVersion)
    (app : App) (path : String) (pos : Nat)
    (hi : occursStr "@i" path = false) (hpp : occursStr "@p" path = false)
    (hv : occursStr "@v" path = false) (ht : occursStr "@t" path = false)
    (hn : occursStr "@n" path = false) (hf : occursStr "@f" path = false)
    (hd : containsChar '$' path.data = false)
    (hcfg : containsChar '$' (app.config_name.getD "").data = false)
    (hw : findSubStr "@w" path = some pos) :
    _expand env v app path =
      (if strTruthy app.config_name then
        pyReplace path "@w" (app.config_name.getD "")
      else ⟨path.data.take (pos - 1) ++ path.data.drop (pos + 2)⟩) := by
  have hemp : ¬path = "" := by
    intro he
    rw [he, show findSubStr "@w" "" = none from rfl] at hw
    cases hw
  have hP1 : (match app.index with
      | some i => pyReplace path "@i" (toString i)
      | none => path) = path := by
    cases app.index with
    | none => rfl
    | some i => exact pyReplace_not_occurs path "@i" (toString i) hi
  simp only [_expand]
  rw [if_neg hemp, hP1,
    pyReplace_not_occurs path "@p" _ hpp,
    pyReplace_not_occurs path "@v" _ hv,
    pyReplace_not_occurs path "@t" _ ht,
    pyReplace_not_occurs path "@n" _ hn]
  rw [if_neg (show ¬occursStr "@f" path = true from by
    rw [hf]; exact Bool.false_ne_true)]
  rw [hw]
  show expandvarsStr env (if strTruthy app.config_name = true then
      pyReplace path "@w" (app.config_name.getD "")
    else ⟨path.data.take (pos - 1) ++ path.data.drop (pos + 2)⟩) = _
  by_cases hcf : strTruthy app.config_name = true
  · rw [if_pos hcf]
    exact expandvarsStr_id env _
      (containsChar_pyReplace '$' path "@w" (app.config_name.getD "") hd hcfg)
  · rw [if_neg hcf]
    apply expandvarsStr_id
    show containsChar '$' (path.data.take (pos - 1) ++ path.data.drop (pos + 2)) = false
    rw [containsChar_append,
      containsChar_take '$' path.data (pos - 1) hd,
      containsChar_drop '$' path.data (pos + 2) hd]
    rfl

/-- Closed witness for `_expand_wildcard`: the two scenarios from the spec,
`"a_@w_b"` with config name `cfg1` and with no config name. -/
theorem _expand_wildcard_witness :
    _expand (fun _ => none) ⟨5, 1, 2⟩
      { app_dir := "a", target := "t", config_name := some "cfg1", name := "a",
        index := none, parallel_index := 1, depends_components := [],
        depends_filepatterns := [], should_build := BuildOrNot.unknown,
        checked_should_build := false }
      "a_@w_b" = "a_cfg1_b" ∧
    _expand (fun _ => none) ⟨5, 1, 2⟩
      { app_dir := "a", target := "t", config_name := none, name := "a",
        index := none, parallel_index := 1, depends_components := [],
        depends_filepatterns := [], should_build := BuildOrNot.unknown,
        checked_should_build := false }
      "a_@w_b" = "a_b" := by
  constructor
  · rw [_expand_wildcard (fun _ => none) ⟨5, 1, 2⟩ _ "a_@w_b" 2
      (by decide) (by decide) (by decide) (by decide) (by decide) (by decide)
      (by decide) (by decide) (by decide)]
    decide
  · rw [_expand_wildcard (fun _ => none) ⟨5, 1, 2⟩ _ "a_@w_b" 2
      (by decide) (by decide) (by decide) (by decide) (by decide) (by decide)
      (by decide) (by decide) (by decide)]
    decide

/-- C5 counterexample: the `@f` substitution is *not* performed before the
`@n` substitution.  With `app_dir = "x@n"` (whose escaped form contains the
app-name token) and raw path `"@f"`, the code substitutes `@n` first and
`@f` afterwards, leaving the injected `@n` literal (result `"x@n"`); under
the spec's claimed ordering (`_expand_fullname_first`) the injected `@n`
would be re-expanded (result `"xx@n"`). -/
theorem _expand_order_cex :
    _expand (fun _ => none) ⟨5, 1, 2⟩
      { app_dir := "x@n", target := "t", config_name := none, name := "x@n",
        index := none, parallel_index := 1, depends_components := [],
        depends_filepatterns := [], should_build := BuildOrNot.unknown,
        checked_should_build := false }
      "@f" = "x@n" ∧
    _expand_fullname_first (fun _ => none) ⟨5, 1, 2⟩
      { app_dir := "x@n", target := "t", config_name := none, name := "x@n",
        index := none, parallel_index := 1, depends_components := [],
        depends_filepatterns := [], should_build := BuildOrNot.unknown,
        checked_should_build := false }
      "@f" = "xx@n" ∧
    ("x@n" : String) ≠ "xx@n" := by
  decide

/-- C5 (amended): in `_expand` the app-name token `@n` is substituted
*before* the full-escaped-name token `@f`; consequently, for every raw path
(in particular one containing both tokens) the result is exactly the `@n`
substitution followed by the `@f` substitution, with nothing re-scanning the
injected text — an app-name token inside the escaped directory stays
literal and is never re-expanded. -/
theorem _expand_name_before_fullname (env : String → Option String)
    (v : IdfVersion) (app : App) (path : String)
    (hi : occursStr "@i" path = false) (hpp : occursStr "@p" path = false)
    (hv : occursStr "@v" path = false) (ht : occursStr "@t" path = false)
    (hwm : occursStr "@w" (pyReplace (pyReplace path "@n" app.name) "@f"
      (pyReplace app.app_dir "/" "_")) = false)
    (hdm : containsChar '$' (pyReplace (pyReplace path "@n" app.name) "@f"
      (pyReplace app.app_dir "/" "_")).data = false) :
    _expand env v app path =
      pyReplace (pyReplace path "@n" app.name) "@f"
        (pyReplace app.app_dir "/" "_") := by
  by_cases hemp : path = ""
  · subst hemp; rfl
  · have hP1 : (match app.index with
        | some i => pyReplace path "@i" (toString i)
        | none => path) = path := by
      cases app.index with
      | none => rfl
      | some i => exact pyReplace_not_occurs path "@i" (toString i) hi
    simp only [_expand]
    rw [if_neg hemp, hP1,
      pyReplace_not_occurs path "@p" _ hpp,
      pyReplace_not_occurs path "@v" _ hv,
      pyReplace_not_occurs path "@t" _ ht]
    have hX : (if occursStr "@f" (pyReplace path "@n" app.name) = true then
        pyReplace (pyReplace path "@n" app.name) "@f" (pyReplace app.app_dir "/" "_")
      else pyReplace path "@n" app.name) =
        pyReplace (pyReplace path "@n" app.name) "@f"
          (pyReplace app.app_dir "/" "_") := by
      by_cases hocc : occursStr "@f" (pyReplace path "@n" app.name) = true
      · rw [if_pos hocc]
      · rw [if_neg hocc,
          pyReplace_not_occurs (pyReplace path "@n" app.name) "@f"
            (pyReplace app.app_dir "/" "_") (Bool.eq_false_iff.mpr hocc)]
    rw [hX, findSubStr_eq_none _ _ hwm]
    exact expandvarsStr_id env _ hdm

/-- Closed witness for `_expand_name_before_fullname`. -/
theorem _expand_name_before_fullname_witness :
    _expand (fun _ => none) ⟨5, 1, 2⟩
      { app_dir := "a/b", target := "t", config_name := none, name := "N",
        index := none, parallel_index := 1, depends_components := [],
        depends_filepatterns := [], should_build := BuildOrNot.unknown,
        checked_should_build := false }
      "@f_@n" = "a_b_N" := by
  rw [_expand_name_before_fullname (fun _ => none) ⟨5, 1, 2⟩ _ "@f_@n"
    (by decide) (by decide) (by decide) (by decide) (by decide) (by decide)]
  decide

theorem slash_append_ne (b : String) : ("/" ++ b) ≠ "" := by
  cases b with
  | mk m =>
    intro he
    have hd : ('/' :: m) = ([] : List Char) := congrArg String.data he
    cases hd

theorem isabs_append (a b : String) (h : isabs a = true) :
    isabs (a ++ b) = true := by
  cases a with
  | mk l =>
    cases b with
    | mk m =>
      cases l with
      | nil => simp [isabs] at h
      | cons c cs => exact h

theorem isabs_joinPath (a b : String) (h : isabs a = true) :
    isabs (joinPath a b) = true := by
  unfold joinPath
  by_cases hb : isabs b = true
  · rw [if_pos hb]; exact hb
  · rw [if_neg hb]
    by_cases h2 : (a = "" ∨ pyEndsWith a "/" = true)
    · rw [if_pos h2]; exact isabs_append a b h
    · rw [if_neg h2]; exact isabs_append (a ++ "/") b (isabs_append a "/" h)

theorem isabs_normpath (p : String) (h : isabs p = true) :
    isabs (normpath p) = true := by
  unfold normpath
  simp only [h, if_true, reduceIte]
  rw [if_neg (slash_append_ne _)]
  exact isabs_append "/" _ rfl

/-- C6 counterexample: with an absolute (already expanded) build directory
`"/a/../b"`, `build_path` returns it verbatim, which is not a normalized
path (`normpath` gives `"/b"`). -/
theorem build_path_cex :
    build_path "/cwd" "/w" "/a/../b" = "/a/../b" ∧
    normpath "/a/../b" = "/b" ∧ ("/a/../b" : String) ≠ "/b" := by
  decide

/-- C6 (amended): `build_path` is always an absolute path (given an absolute
current working directory); when the build directory is relative it is
additionally normalized — it equals the lexical normalization of
`cwd/work_dir/build_dir` — but an absolute build directory is returned
verbatim, without normalization. -/
theorem build_path_abs (cwd work_dir build_dir : String)
    (hcwd : isabs cwd = true) :
    isabs (build_path cwd work_dir build_dir) = true ∧
    (isabs build_dir = false →
      build_path cwd work_dir build_dir =
        normpath (joinPath cwd (joinPath work_dir build_dir))) := by
  constructor
  · unfold build_path
    by_cases hb : isabs build_dir = true
    · rw [if_pos hb]; exact hb
    · rw [if_neg hb]
      exact isabs_normpath _ (isabs_joinPath cwd _ hcwd)
  · intro hb
    unfold build_path
    rw [if_neg (show ¬isabs build_dir = true from by
      rw [hb]; exact Bool.false_ne_true)]
    rfl

/-- Closed witness for `build_path_abs`. -/
theorem build_path_abs_witness :
    isabs (build_path "/cwd" "w" "b") = true ∧
    (isabs "b" = false →
      build_path "/cwd" "w" "b" = normpath (joinPath "/cwd" (joinPath "w" "b"))) :=
  build_path_abs "/cwd" "w" "b" (by decide)

theorem processLine_snd (isCMake : Bool) (env : String → Option String)
    (st : SdkState) (line : String) :
    (processLine isCMake env st line).2 = lineOut isCMake env line := by
  simp only [processLine, lineOut]
  cases hm : matchSdkconfigLine (expandvarsStr env line) with
  | none => rfl
  | some kv =>
    cases kv with
    | mk k v =>
      dsimp only
      split_ifs <;> rfl

theorem processFileLines_snd (isCMake : Bool) (env : String → Option String) :
    ∀ (st : SdkState) (lines : List String),
      (processFileLines isCMake env st lines).2 =
        lines.filterMap (lineOut isCMake env) := by
  intro st lines
  induction lines generalizing st with
  | nil => rfl
  | cons line rest ih =>
    simp only [processFileLines, processLine_snd, ih, List.filterMap_cons]
    cases lineOut isCMake env line <;> rfl

theorem dictFind_insert_self {α : Type} (d : List (String × α)) (k : String)
    (v : α) : dictFind (dictInsert d k v) k = some v := by
  unfold dictInsert
  induction d with
  | nil => simp [dictFind, dictErase]
  | cons p rest ih =>
    cases p with
    | mk k1 v1 =>
      by_cases h : k1 = k
      · simpa [dictErase, h] using ih
      · simpa [dictErase, h, dictFind] using ih

theorem dictFind_insert_ne {α : Type} (d : List (String × α)) (k1 : String)
    (v : α) (k : String) (h : k1 ≠ k) :
    dictFind (dictInsert d k1 v) k = dictFind d k := by
  unfold dictInsert
  induction d with
  | nil => simp [dictFind, dictErase, h]
  | cons p rest ih =>
    cases p with
    | mk ka va =>
      by_cases hb : ka = k
      · subst hb
        have hka : ¬ka = k1 := fun he => h (he.symm ▸ rfl)
        simp [dictErase, hka, dictFind]
      · by_cases ha : ka = k1
        · subst ha
          simpa [dictErase, dictFind, hb] using ih
        · simpa [dictErase, ha, dictFind, hb] using ih

theorem dictFind_erase_self {α : Type} (d : List (String × α)) (k : String) :
    dictFind (dictErase d k) k = none := by
  induction d with
  | nil => rfl
  | cons p rest ih =>
    cases p with
    | mk k1 v1 =>
      by_cases h : k1 = k
      · simpa [dictErase, h] using ih
      · simpa [dictErase, h, dictFind] using ih

theorem dictFind_erase_ne {α : Type} (d : List (String × α)) (k1 k : String)
    (h : k1 ≠ k) : dictFind (dictErase d k1) k = dictFind d k := by
  induction d with
  | nil => rfl
  | cons p rest ih =>
    cases p with
    | mk ka va =>
      by_cases hb : ka = k
      · subst hb
        have hka : ¬ka = k1 := fun he => h (he.symm ▸ rfl)
        simp [dictErase, hka, dictFind]
      · by_cases ha : ka = k1
        · subst ha
          simpa [dictErase, dictFind, hb] using ih
        · simpa [dictErase, ha, dictFind, hb] using ih

theorem append_dot_ne (bn sfx : String) : bn ++ "." ++ sfx ≠ bn := by
  intro he
  have hl := congrArg String.length he
  rw [String.length_append, String.length_append] at hl
  have : String.length "." = 1 := rfl
  omega

/-- C8: during sdkconfig processing of a line whose (environment-expanded)
key is one of the fixed test-option keys, the CMake variant removes the line
from the output and records the key/value in `cmake_vars`; a line with an
ignored key (`TEST_GROUPS`) is removed with no side effect at all; the
make-based variant leaves all such lines in the output (environment
expanded) and touches no state. -/
theorem sdkconfig_key_routing (env : String → Option String) (st : SdkState)
    (line k v : String)
    (hm : matchSdkconfigLine (expandvarsStr env line) = some (k, v)) :
    (k ∈ SDKCONFIG_TEST_OPTS →
      processLine true env st line =
        ({ st with cmake_vars := dictInsert st.cmake_vars k v }, none)) ∧
    (k ∈ SDKCONFIG_IGNORE_OPTS →
      processLine true env st line = (st, none)) ∧
    (k ∈ SDKCONFIG_TEST_OPTS ∨ k ∈ SDKCONFIG_IGNORE_OPTS →
      processLine false env st line = (st, some (expandvarsStr env line))) := by
  refine ⟨?_, ?_, ?_⟩
  · intro hk
    simp only [processLine]
    rw [hm]
    fin_cases hk
    · rfl
    · rfl
    · rfl
  · intro hk
    simp only [processLine]
    rw [hm]
    fin_cases hk
    rfl
  · intro hk
    simp only [processLine]
    rw [hm]
    rcases hk with hk | hk
    · fin_cases hk
      · rfl
      · rfl
      · rfl
    · fin_cases hk
      rfl

/-- Closed witness for `sdkconfig_key_routing`: `TEST_COMPONENTS=foo` is
dropped but recorded, `TEST_GROUPS=foo` is dropped outright, and the make
variant keeps both lines. -/
theorem sdkconfig_key_routing_witness :
    processLine true (fun _ => none) ⟨[], none⟩ "TEST_COMPONENTS=foo\n" =
      (⟨[("TEST_COMPONENTS", "foo")], none⟩, none) ∧
    processLine true (fun _ => none) ⟨[], none⟩ "TEST_GROUPS=foo\n" =
      (⟨[], none⟩, none) ∧
    processLine false (fun _ => none) ⟨[], none⟩ "TEST_GROUPS=foo\n" =
      (⟨[], none⟩, some "TEST_GROUPS=foo\n") := by
  refine ⟨?_, ?_, ?_⟩
  · exact ((sdkconfig_key_routing (fun _ => none) ⟨[], none⟩ "TEST_COMPONENTS=foo\n"
      "TEST_COMPONENTS" "foo" (by decide)).1 (by decide)).trans (by decide)
  · exact ((sdkconfig_key_routing (fun _ => none) ⟨[], none⟩ "TEST_GROUPS=foo\n"
      "TEST_GROUPS" "foo" (by decide)).2.1 (by decide)).trans (by decide)
  · exact ((sdkconfig_key_routing (fun _ => none) ⟨[], none⟩ "TEST_GROUPS=foo\n"
      "TEST_GROUPS" "foo" (by decide)).2.2 (Or.inr (by decide))).trans (by decide)

theorem sdkGo_res (isCMake : Bool) (env : String → Option String)
    (work_dir expanded_dir target : String) (fs : List (String × List String)) :
    ∀ (cands : List String) (acc : SdkAcc),
      (sdkGo isCMake env work_dir expanded_dir target fs cands acc).res =
        acc.res ++ cands.filterMap (fun c =>
          (dictFind fs (resolveCandidate work_dir c)).map (fun lines =>
            if String.join (lines.filterMap (lineOut isCMake env)) = String.join lines
            then resolveCandidate work_dir c
            else joinPath expanded_dir (basenameStr (resolveCandidate work_dir c)))) := by
  intro cands
  induction cands with
  | nil => intro acc; simp [sdkGo]
  | cons c rest ih =>
    intro acc
    simp only [sdkGo]
    cases hf : dictFind fs (resolveCandidate work_dir c) with
    | none =>
      simp only [hf]
      rw [ih acc, List.filterMap_cons]
      simp [hf]
    | some lines =>
      simp only [hf, processFileLines_snd]
      rw [List.filterMap_cons]
      simp only [hf, Option.map_some']
      by_cases hc : String.join (lines.filterMap (lineOut isCMake env)) = String.join lines
      · rw [if_pos hc, if_pos hc, ih]
        simp
      · rw [if_neg hc, if_neg hc, ih]
        simp

theorem sdkNames_cons_found (work_dir : String) (fs : List (String × List String))
    (c : String) (rest : List String) (lines : List String)
    (hf : dictFind fs (resolveCandidate work_dir c) = some lines) :
    sdkNames work_dir fs (c :: rest) =
      basenameStr (resolveCandidate work_dir c) :: sdkNames work_dir fs rest := by
  unfold sdkNames
  rw [List.filterMap_cons, hf]
  rfl

theorem sdkNames_cons_missing (work_dir : String) (fs : List (String × List String))
    (c : String) (rest : List String)
    (hf : dictFind fs (resolveCandidate work_dir c) = none) :
    sdkNames work_dir fs (c :: rest) = sdkNames work_dir fs rest := by
  unfold sdkNames
  rw [List.filterMap_cons, hf]
  rfl

theorem sdkGo_scratch_untouched (isCMake : Bool) (env : String → Option String)
    (work_dir expanded_dir target : String) (fs : List (String × List String)) :
    ∀ (cands : List String) (acc : SdkAcc) (k : String),
      (∀ c ∈ cands, ∀ lines,
        dictFind fs (resolveCandidate work_dir c) = some lines →
        basenameStr (resolveCandidate work_dir c) ≠ k ∧
        basenameStr (resolveCandidate work_dir c) ++ "." ++ target ≠ k) →
      dictFind (sdkGo isCMake env work_dir expanded_dir target fs cands acc).scratch k =
        dictFind acc.scratch k := by
  intro cands
  induction cands with
  | nil => intro acc k _; rfl
  | cons c rest ih =>
    intro acc k H
    simp only [sdkGo]
    cases hf : dictFind fs (resolveCandidate work_dir c) with
    | none =>
      simp only [hf]
      exact ih acc k (fun c' hc' => H c' (List.mem_cons_of_mem _ hc'))
    | some lines =>
      simp only [hf]
      obtain ⟨hbn, hsib⟩ := H c (List.mem_cons_self _ _) lines hf
      by_cases hc :
          String.join ((processFileLines isCMake env acc.st lines).2) = String.join lines
      · rw [if_pos hc]
        rw [ih _ k (fun c' hc' => H c' (List.mem_cons_of_mem _ hc'))]
        rw [dictFind_erase_ne _ _ _ hbn, dictFind_insert_ne _ _ _ _ hbn]
      · rw [if_neg hc]
        rw [ih _ k (fun c' hc' => H c' (List.mem_cons_of_mem _ hc'))]
        cases hs : dictFind fs (joinPath (dirnameStr (resolveCandidate work_dir c))
            (basenameStr (resolveCandidate work_dir c) ++ "." ++ target)) with
        | none =>
          simp only [hs]
          rw [dictFind_insert_ne _ _ _ _ hbn]
        | some sibLines =>
          simp only [hs]
          rw [dictFind_insert_ne _ _ _ _ hsib, dictFind_insert_ne _ _ _ _ hbn]

theorem sdkGo_scratch_spec (isCMake : Bool) (env : String → Option String)
    (work_dir expanded_dir target : String) (fs : List (String × List String)) :
    ∀ (cands : List String) (acc : SdkAcc) (c : String) (lines : List String),
      c ∈ cands →
      dictFind fs (resolveCandidate work_dir c) = some lines →
      (sdkAllNames work_dir target fs cands).Nodup →
      ((String.join (lines.filterMap (lineOut isCMake env)) = String.join lines →
          dictFind (sdkGo isCMake env work_dir expanded_dir target fs cands acc).scratch
            (basenameStr (resolveCandidate work_dir c)) = none) ∧
       (String.join (lines.filterMap (lineOut isCMake env)) ≠ String.join lines →
          dictFind (sdkGo isCMake env work_dir expanded_dir target fs cands acc).scratch
            (basenameStr (resolveCandidate work_dir c)) =
            some (String.join (lines.filterMap (lineOut isCMake env))) ∧
          ∀ sibLines,
            dictFind fs (joinPath (dirnameStr (resolveCandidate work_dir c))
                (basenameStr (resolveCandidate work_dir c) ++ "." ++ target)) =
              some sibLines →
            dictFind (sdkGo isCMake env work_dir expanded_dir target fs cands acc).scratch
              (basenameStr (resolveCandidate work_dir c) ++ "." ++ target) =
              some (String.join sibLines))) := by
  intro cands
  induction cands with
  | nil =>
    intro acc c lines hmem
    simp at hmem
  | cons c0 rest ih =>
    intro acc c lines hmem hf hnd
    rcases List.mem_cons.mp hmem with heq | hmem'
    · subst heq
      simp only [sdkGo, hf, processFileLines_snd]
      have hnames : sdkAllNames work_dir target fs (c :: rest) =
          basenameStr (resolveCandidate work_dir c) ::
            (sdkNames work_dir fs rest ++
              (basenameStr (resolveCandidate work_dir c) ++ "." ++ target) ::
                (sdkNames work_dir fs rest).map (fun n => n ++ "." ++ target)) := by
        unfold sdkAllNames
        rw [sdkNames_cons_found work_dir fs c rest lines hf, List.map_cons,
          List.cons_append]
      rw [hnames] at hnd
      obtain ⟨h1, h2⟩ := List.nodup_cons.mp hnd
      obtain ⟨hN, h3, hdisj⟩ := List.nodup_append.mp h2
      obtain ⟨hsib0, hmap⟩ := List.nodup_cons.mp h3
      have h1a : basenameStr (resolveCandidate work_dir c) ∉ sdkNames work_dir fs rest :=
        fun hx => h1 (List.mem_append_left _ hx)
      have h1b : basenameStr (resolveCandidate work_dir c) ∉
          (sdkNames work_dir fs rest).map (fun n => n ++ "." ++ target) :=
        fun hx => h1 (List.mem_append_right _ (List.mem_cons_of_mem _ hx))
      have hub : ∀ c' ∈ rest, ∀ lines',
          dictFind fs (resolveCandidate work_dir c') = some lines' →
          basenameStr (resolveCandidate work_dir c') ≠
            basenameStr (resolveCandidate work_dir c) ∧
          basenameStr (resolveCandidate work_dir c') ++ "." ++ target ≠
            basenameStr (resolveCandidate work_dir c) := by
        intro c' hc' lines' hf'
        have hm1 : basenameStr (resolveCandidate work_dir c') ∈ sdkNames work_dir fs rest :=
          List.mem_filterMap.mpr ⟨c', hc', by rw [hf']; rfl⟩
        constructor
        · intro he; exact h1a (he ▸ hm1)
        · intro he
          exact h1b (he ▸ List.mem_map_of_mem _ hm1)
      have hus : ∀ c' ∈ rest, ∀ lines',
          dictFind fs (resolveCandidate work_dir c') = some lines' →
          basenameStr (resolveCandidate work_dir c') ≠
            basenameStr (resolveCandidate work_dir c) ++ "." ++ target ∧
          basenameStr (resolveCandidate work_dir c') ++ "." ++ target ≠
            basenameStr (resolveCandidate work_dir c) ++ "." ++ target := by
        intro c' hc' lines' hf'
        have hm1 : basenameStr (resolveCandidate work_dir c') ∈ sdkNames work_dir fs rest :=
          List.mem_filterMap.mpr ⟨c', hc', by rw [hf']; rfl⟩
        constructor
        · intro he
          exact hdisj hm1 (by rw [he]; exact List.mem_cons_self _ _)
        · intro he
          exact hsib0 (he ▸ List.mem_map_of_mem _ hm1)
      by_cases hc2 : String.join (lines.filterMap (lineOut isCMake env)) = String.join lines
      · rw [if_pos hc2]
        refine ⟨fun _ => ?_, fun hne => absurd hc2 hne⟩
        rw [sdkGo_scratch_untouched isCMake env work_dir expanded_dir target fs rest _ _ hub]
        exact dictFind_erase_self _ _
      · rw [if_neg hc2]
        refine ⟨fun heq => absurd heq hc2, fun _ => ⟨?_, ?_⟩⟩
        · rw [sdkGo_scratch_untouched isCMake env work_dir expanded_dir target fs rest _ _ hub]
          cases hs : dictFind fs (joinPath (dirnameStr (resolveCandidate work_dir c))
              (basenameStr (resolveCandidate work_dir c) ++ "." ++ target)) with
          | none =>
            simp only [hs]
            rw [dictFind_insert_self]
          | some sibLines =>
            simp only [hs]
            rw [dictFind_insert_ne _ _ _ _ (append_dot_ne _ _), dictFind_insert_self]
        · intro sibLines hs
          rw [sdkGo_scratch_untouched isCMake env work_dir expanded_dir target fs rest _ _ hus]
          simp only [hs]
          rw [dictFind_insert_self]
    · simp only [sdkGo]
      cases hf0 : dictFind fs (resolveCandidate work_dir c0) with
      | none =>
        simp only [hf0]
        apply ih acc c lines hmem' hf
        have hsame : sdkAllNames work_dir target fs (c0 :: rest) =
            sdkAllNames work_dir target fs rest := by
          unfold sdkAllNames
          rw [sdkNames_cons_missing work_dir fs c0 rest hf0]
        rwa [hsame] at hnd
      | some lines0 =>
        simp only [hf0]
        have hnames : sdkAllNames work_dir target fs (c0 :: rest) =
            basenameStr (resolveCandidate work_dir c0) ::
              (sdkNames work_dir fs rest ++
                (basenameStr (resolveCandidate work_dir c0) ++ "." ++ target) ::
                  (sdkNames work_dir fs rest).map (fun n => n ++ "." ++ target)) := by
          unfold sdkAllNames
          rw [sdkNames_cons_found work_dir fs c0 rest lines0 hf0, List.map_cons,
            List.cons_append]
        rw [hnames] at hnd
        obtain ⟨h1, h2⟩ := List.nodup_cons.mp hnd
        obtain ⟨hN, h3, hdisj⟩ := List.nodup_append.mp h2
        obtain ⟨hsib0, hmap⟩ := List.nodup_cons.mp h3
        have hnd' : (sdkAllNames work_dir target fs rest).Nodup := by
          unfold sdkAllNames
          exact List.nodup_append.mpr
            ⟨hN, hmap, fun a ha hb => hdisj ha (List.mem_cons_of_mem _ hb)⟩
        by_cases hc2 :
            String.join ((processFileLines isCMake env acc.st lines0).2) = String.join lines0
        · rw [if_pos hc2]
          exact ih _ c lines hmem' hf hnd'
        · rw [if_neg hc2]
          exact ih _ c lines hmem' hf hnd'

/-- C7: the sdkconfig pipeline hands the toolchain, in input order (defaults
first, then the overlay), the original path of every candidate whose
normalized content is byte-identical to the original, and the scratch-copy
path of every candidate whose content changed; the scratch directory ends up
holding no file for unchanged candidates, and for changed candidates the
normalized copy plus any existing `<basename>.<target>` sibling (stated
under the hypothesis that the scratch file names are pairwise distinct, as
they are in practice — otherwise later candidates overwrite earlier scratch
files of the same name). -/
theorem _process_sdkconfig_files_spec (isCMake : Bool)
    (env : String → Option String) (work_dir build_dir target : String)
    (defaults : List String) (overlay : Option String)
    (fs : List (String × List String)) :
    (_process_sdkconfig_files isCMake env work_dir build_dir target
        defaults overlay fs).res =
      (sdkCandidates defaults overlay).filterMap (fun c =>
        (dictFind fs (resolveCandidate work_dir c)).map (fun lines =>
          if String.join (lines.filterMap (lineOut isCMake env)) = String.join lines
          then resolveCandidate work_dir c
          else joinPath
            (joinPath (joinPath work_dir "expanded_sdkconfig_files")
              (basenameStr build_dir))
            (basenameStr (resolveCandidate work_dir c)))) ∧
    ((sdkAllNames work_dir target fs (sdkCandidates defaults overlay)).Nodup →
      ∀ c ∈ sdkCandidates defaults overlay, ∀ lines,
        dictFind fs (resolveCandidate work_dir c) = some lines →
        ((String.join (lines.filterMap (lineOut isCMake env)) = String.join lines →
            dictFind (_process_sdkconfig_files isCMake env work_dir build_dir target
                defaults overlay fs).scratch
              (basenameStr (resolveCandidate work_dir c)) = none) ∧
         (String.join (lines.filterMap (lineOut isCMake env)) ≠ String.join lines →
            dictFind (_process_sdkconfig_files isCMake env work_dir build_dir target
                defaults overlay fs).scratch
              (basenameStr (resolveCandidate work_dir c)) =
              some (String.join (lines.filterMap (lineOut isCMake env))) ∧
            ∀ sibLines,
              dictFind fs (joinPath (dirnameStr (resolveCandidate work_dir c))
                  (basenameStr (resolveCandidate work_dir c) ++ "." ++ target)) =
                some sibLines →
              dictFind (_process_sdkconfig_files isCMake env work_dir build_dir target
                  defaults overlay fs).scratch
                (basenameStr (resolveCandidate work_dir c) ++ "." ++ target) =
                some (String.join sibLines)))) := by
  constructor
  · simp only [_process_sdkconfig_files]
    rw [sdkGo_res isCMake env work_dir
      (joinPath (joinPath work_dir "expanded_sdkconfig_files") (basenameStr build_dir))
      target fs (sdkCandidates defaults overlay)
      { res := [], scratch := [],
        st := { cmake_vars := [], sdkconfig_files_defined_target := none } }]
    rfl
  · intro hnd c hcmem lines hf
    exact sdkGo_scratch_spec isCMake env work_dir
      (joinPath (joinPath work_dir "expanded_sdkconfig_files") (basenameStr build_dir))
      target fs (sdkCandidates defaults overlay)
      { res := [], scratch := [],
        st := { cmake_vars := [], sdkconfig_files_defined_target := none } }
      c lines hcmem hf hnd

/-- Closed witness for `_process_sdkconfig_files_spec`: one candidate file
whose `TEST_GROUPS` line is dropped (so its content changes), with a
target-specific sibling present. -/
theorem _process_sdkconfig_files_spec_witness :
    (_process_sdkconfig_files true (fun _ => none) "/w" "build" "esp32"
        ["sdkconfig.defaults"] none
        [("/w/sdkconfig.defaults", ["TEST_GROUPS=x\n", "A=1\n"]),
         ("/w/sdkconfig.defaults.esp32", ["B=2\n"])]).res =
      ["/w/expanded_sdkconfig_files/build/sdkconfig.defaults"] ∧
    dictFind (_process_sdkconfig_files true (fun _ => none) "/w" "build" "esp32"
        ["sdkconfig.defaults"] none
        [("/w/sdkconfig.defaults", ["TEST_GROUPS=x\n", "A=1\n"]),
         ("/w/sdkconfig.defaults.esp32", ["B=2\n"])]).scratch
      "sdkconfig.defaults" = some "A=1\n" ∧
    dictFind (_process_sdkconfig_files true (fun _ => none) "/w" "build" "esp32"
        ["sdkconfig.defaults"] none
        [("/w/sdkconfig.defaults", ["TEST_GROUPS=x\n", "A=1\n"]),
         ("/w/sdkconfig.defaults.esp32", ["B=2\n"])]).scratch
      "sdkconfig.defaults.esp32" = some "B=2\n" := by
  have h := _process_sdkconfig_files_spec true (fun _ => none) "/w" "build" "esp32"
    ["sdkconfig.defaults"] none
    [("/w/sdkconfig.defaults", ["TEST_GROUPS=x\n", "A=1\n"]),
     ("/w/sdkconfig.defaults.esp32", ["B=2\n"])]
  have h2 := (h.2 (by decide) "sdkconfig.defaults" (by decide)
    ["TEST_GROUPS=x\n", "A=1\n"] (by decide)).2 (by decide)
  refine ⟨h.1.trans (by decide), ?_, ?_⟩
  · have hb := h2.1
    rw [show basenameStr (resolveCandidate "/w" "sdkconfig.defaults") =
      "sdkconfig.defaults" from by decide] at hb
    rw [show String.join ((["TEST_GROUPS=x\n", "A=1\n"] : List String).filterMap
      (lineOut true (fun _ => none))) = "A=1\n" from by decide] at hb
    exact hb
  · have hs := h2.2 ["B=2\n"] (by decide)
    rw [show basenameStr (resolveCandidate "/w" "sdkconfig.defaults") ++ "." ++ "esp32" =
      "sdkconfig.defaults.esp32" from by decide] at hs
    rw [show String.join (["B=2\n"] : List String) = "B=2\n" from by decide] at hs
    exact hs

/-- C9: with no persistent log path configured, a toolchain error preserves
the anonymous temporary log (no `removeTempLog` event) and the error is
re-raised as the very last step, after all classification events and the
trailing `LOG_DEBUG_LINES` diagnostic lines; when the toolchain did not
raise, the temporary log is deleted. -/
theorem build_temp_log (ignores : String → Bool)
    (check_warnings preserve : Bool) (size_json_path : Option String)
    (buildResult : Except String Bool) (rawLines : List String) :
    (∀ e, buildResult = Except.error e →
      build_run ignores false check_warnings preserve none size_json_path
          buildResult rawLines =
        (rawLines.filterMap
            (fun l => if rstrip l = "" then none else some (rstrip l))).filterMap
            (fun line =>
              if (is_error_or_warning ignores line).1 then
                (if (is_error_or_warning ignores line).2 then
                  some (BuildEvent.ignoredLine line)
                else some (BuildEvent.warnLine line))
              else none) ++
          ((rawLines.filterMap
              (fun l => if rstrip l = "" then none else some (rstrip l))).drop
            ((rawLines.filterMap
                (fun l => if rstrip l = "" then none else some (rstrip l))).length -
              LOG_DEBUG_LINES)).map BuildEvent.diagLine ++
          (if !preserve then [BuildEvent.cleanBuildDir] else []) ++
          [BuildEvent.raised e] ∧
      BuildEvent.removeTempLog ∉
        build_run ignores false check_warnings preserve none size_json_path
          buildResult rawLines) ∧
    (∀ b, buildResult = Except.ok b →
      BuildEvent.removeTempLog ∈
        build_run ignores false check_warnings preserve none size_json_path
          buildResult rawLines) := by
  constructor
  · intro e he
    subst he
    have heq : build_run ignores false check_warnings preserve none size_json_path
        (Except.error e) rawLines =
        (rawLines.filterMap
            (fun l => if rstrip l = "" then none else some (rstrip l))).filterMap
            (fun line =>
              if (is_error_or_warning ignores line).1 then
                (if (is_error_or_warning ignores line).2 then
                  some (BuildEvent.ignoredLine line)
                else some (BuildEvent.warnLine line))
              else none) ++
          ((rawLines.filterMap
              (fun l => if rstrip l = "" then none else some (rstrip l))).drop
            ((rawLines.filterMap
                (fun l => if rstrip l = "" then none else some (rstrip l))).length -
              LOG_DEBUG_LINES)).map BuildEvent.diagLine ++
          (if !preserve then [BuildEvent.cleanBuildDir] else []) ++
          [BuildEvent.raised e] := by
      simp only [build_run]
      simp
    refine ⟨heq, ?_⟩
    rw [heq]
    intro hmem
    rcases List.mem_append.mp hmem with hmem | hmem
    · rcases List.mem_append.mp hmem with hmem | hmem
      · rcases List.mem_append.mp hmem with hmem | hmem
        · rcases List.mem_filterMap.mp hmem with ⟨l, _, hfl⟩
          split_ifs at hfl <;> simp_all
        · rcases List.mem_map.mp hmem with ⟨l, _, hfl⟩
          cases hfl
      · by_cases hp : !preserve = true <;> simp_all
    · simp_all
  · intro b hb
    subst hb
    simp [build_run, List.mem_append]

/-- Closed witness for `build_temp_log`. -/
theorem build_temp_log_witness :
    BuildEvent.removeTempLog ∉
      build_run (fun _ => false) false false true none none
        (Except.error "boom") ["error: x"] ∧
    BuildEvent.removeTempLog ∈
      build_run (fun _ => false) false false true none none
        (Except.ok true) [] :=
  ⟨((build_temp_log (fun _ => false) false true none
      (Except.error "boom") ["error: x"]).1 "boom" rfl).2,
   (build_temp_log (fun _ => false) false true none
      (Except.ok true) []).2 true rfl⟩

/-- C10: with no persistent log path and a toolchain success, an unignored
warning under `check_warnings` still deletes the temporary log first — the
`removeTempLog` event precedes the strict-warnings policy error, which is
raised only afterwards; only toolchain errors preserve the temporary log. -/
theorem build_warnings_policy (ignores : String → Bool)
    (preserve : Bool) (size_json_path : Option String) (b : Bool)
    (rawLines : List String)
    (hwarn : (rawLines.filterMap
        (fun l => if rstrip l = "" then none else some (rstrip l))).any
      (fun line => (is_error_or_warning ignores line).1 &&
        !(is_error_or_warning ignores line).2) = true) :
    build_run ignores false true preserve none size_json_path
        (Except.ok b) rawLines =
      (rawLines.filterMap
          (fun l => if rstrip l = "" then none else some (rstrip l))).filterMap
          (fun line =>
            if (is_error_or_warning ignores line).1 then
              (if (is_error_or_warning ignores line).2 then
                some (BuildEvent.ignoredLine line)
              else some (BuildEvent.warnLine line))
            else none) ++
        [BuildEvent.removeTempLog] ++
        (if b && size_json_path.isSome then [BuildEvent.writeSizeJson] else []) ++
        (if !preserve then [BuildEvent.cleanBuildDir] else []) ++
        [BuildEvent.raised "Build succeeded with warnings"] ∧
    BuildEvent.removeTempLog ∈
      build_run ignores false true preserve none size_json_path
        (Except.ok b) rawLines := by
  have heq : build_run ignores false true preserve none size_json_path
      (Except.ok b) rawLines =
      (rawLines.filterMap
          (fun l => if rstrip l = "" then none else some (rstrip l))).filterMap
          (fun line =>
            if (is_error_or_warning ignores line).1 then
              (if (is_error_or_warning ignores line).2 then
                some (BuildEvent.ignoredLine line)
              else some (BuildEvent.warnLine line))
            else none) ++
        [BuildEvent.removeTempLog] ++
        (if b && size_json_path.isSome then [BuildEvent.writeSizeJson] else []) ++
        (if !preserve then [BuildEvent.cleanBuildDir] else []) ++
        [BuildEvent.raised "Build succeeded with warnings"] := by
    simp only [build_run]
    rw [hwarn]
    simp
  refine ⟨heq, ?_⟩
  rw [heq]
  simp [List.mem_append]

/-- Closed witness for `build_warnings_policy`. -/
theorem build_warnings_policy_witness :
    build_run (fun _ => false) false true true none none
        (Except.ok true) ["error: boom"] =
      [BuildEvent.warnLine "error: boom", BuildEvent.removeTempLog,
       BuildEvent.raised "Build succeeded with warnings"] :=
  (build_warnings_policy (fun _ => false) true none true ["error: boom"]
    (by decide)).1.trans (by decide)
